import Mathlib

/-!
Verification of the Terminally-mcp session/command execution core.

The definitions below are a shallow embedding of the TypeScript sources:
  - `src/src/services/tmuxManager.ts` (the `KeyMutex`-based implementation:
    `executeCommand`, `createTab`, `listTabs`, `readLogsFromTab`, `stopProcess`),
  - `src/utils/mutex.ts` (`KeyMutex.runExclusive`),
  - `src/tools/handlers.ts` (`ToolHandler.validateArgs`,
    `ExecuteCommandToolHandler.handle`).

JavaScript string operations (`trim`, `split`, `join`, `includes`,
`startsWith`, regex matching used by the code) are modelled on `List Char`,
the honest representation of a JS string. Subprocess calls to the external
tmux binary are modelled by an oracle `Nat → Except String String` giving the
outcome of the n-th spawn (`spawnAndCapture` rejects on non-zero exit, which
is the `Except.error` case), plus an effect trace recording the argv of every
invocation and every mutex acquisition, in program order.
-/

/-! ## JS string primitives -/

/-- Whitespace test used by JS `String.prototype.trim`. -/
def isWS (c : Char) : Bool := c.isWhitespace

/-- JS `s.trim()`: drop whitespace from both ends. -/
def trimChars (l : List Char) : List Char :=
  ((l.dropWhile isWS).reverse.dropWhile isWS).reverse

/-- JS `s.trim()` on `String`. -/
def jsTrim (s : String) : String := ⟨trimChars s.data⟩

/-- JS `hay.includes(need)`: substring test. -/
def containsChars (hay need : List Char) : Bool :=
  match hay with
  | [] => need.isEmpty
  | _ :: rest => need.isPrefixOf hay || containsChars rest need

/-- JS `hay.includes(need)` on `String`. -/
def jsIncludes (hay need : String) : Bool := containsChars hay.data need.data

/-- JS `s.startsWith(pre)`. -/
def jsStartsWith (s pre : String) : Bool := pre.data.isPrefixOf s.data

/-- JS `s.split(sep)` for a one-character separator. -/
def splitOnChar (sep : Char) : List Char → List (List Char)
  | [] => [[]]
  | c :: rest =>
    match splitOnChar sep rest with
    | [] => [[]]
    | h :: t => if c = sep then [] :: h :: t else (c :: h) :: t

/-- JS `parts.join(sep)` for a one-character separator. -/
def joinChar (sep : Char) : List (List Char) → List Char
  | [] => []
  | [l] => l
  | l :: ls => l ++ sep :: joinChar sep ls

/-- JS `s.split('\n')` on `String`. -/
def jsSplitNl (s : String) : List String :=
  (splitOnChar '\n' s.data).map String.mk

/-- JS `lines.join('\n')` on `String`. -/
def jsJoinNl (ls : List String) : String :=
  ⟨joinChar '\n' (ls.map String.data)⟩

/-- `paneDump.replace(/\r/g, '').replace(/\u000c/g, '')`
(tmuxManager.ts line 609). -/
def normChars (l : List Char) : List Char :=
  l.filter (fun c => !(c = '\r' || c = '\x0c'))

/-- Index of the first list element satisfying `p` (JS `findIndex`,
`none` for -1). -/
def firstIdxP (p : String → Bool) : List String → Option Nat
  | [] => none
  | l :: ls => if p l then some 0 else (firstIdxP p ls).map (· + 1)

/-- Value of a decimal digit string (JS `parseInt(ds, 10)` on a `\d+` match). -/
def digitsToNat (l : List Char) : Nat :=
  l.foldl (fun acc c => acc * 10 + (c.toNat - 48)) 0

/-- The fixed exit-code pattern text (`exitCodeMarker` in tmuxManager.ts). -/
def ecPat : List Char := "_EXIT_CODE:".data

/-- JS `line.match(/_EXIT_CODE:(\d+)/)`: first position where the literal
pattern is followed by at least one digit; returns the parsed digit run. -/
def findExitCodeChars : List Char → Option Nat
  | [] => none
  | c :: rest =>
    if ecPat.isPrefixOf (c :: rest) then
      let ds := ((c :: rest).drop ecPat.length).takeWhile Char.isDigit
      if ds.isEmpty then findExitCodeChars rest else some (digitsToNat ds)
    else findExitCodeChars rest

/-- Exit-code extraction from the end-sentinel line (tmuxManager.ts 620-623). -/
def extractExitCode (line : String) : Option Nat := findExitCodeChars line.data

/-! ## ANSI stripping (tmuxManager.ts `stripAnsiSequences`, lines 832-835) -/

/-- Given the characters after an ESC, if they form `[ [0-9;]* letter`,
return the suffix after the letter (the regex `\x1b\[[0-9;]*[a-zA-Z]`). -/
def ansiSplit (rest : List Char) : Option (List Char) :=
  match rest with
  | [] => none
  | d :: more =>
    if d = '[' then
      match more.dropWhile (fun c => c.isDigit || c = ';') with
      | [] => none
      | c :: suffix => if c.isAlpha then some suffix else none
    else none

/-- `text.replace(/\x1b\[[0-9;]*[a-zA-Z]/g, '')`: delete every ANSI escape
sequence, scanning left to right. -/
def stripAnsiChars (l : List Char) : List Char :=
  match l with
  | [] => []
  | c :: rest =>
    if c = '\x1b' then
      match h : ansiSplit rest with
      | some suffix => stripAnsiChars suffix
      | none => c :: stripAnsiChars rest
    else c :: stripAnsiChars rest
termination_by l.length
decreasing_by
  · simp only [List.length_cons]
    cases rest with
    | nil => simp [ansiSplit] at h
    | cons d more =>
      simp only [ansiSplit] at h
      by_cases hd : d = '['
      · rw [if_pos hd] at h
        cases hm : more.dropWhile (fun c => c.isDigit || c = ';') with
        | nil => rw [hm] at h; exact absurd h (by simp)
        | cons e suf =>
          rw [hm] at h
          dsimp only at h
          by_cases he : e.isAlpha
          · rw [if_pos he] at h
            cases h
            have h1 : (e :: suffix).length ≤ more.length := by
              rw [← hm]; exact (List.dropWhile_sublist _).length_le
            simp only [List.length_cons] at h1 ⊢
            omega
          · rw [if_neg he] at h; exact absurd h (by simp)
      · rw [if_neg hd] at h; exact absurd h (by simp)
  · simp
  · simp

/-- `stripAnsiSequences` on `String`. -/
def stripAnsiStr (s : String) : String := ⟨stripAnsiChars s.data⟩

/-! ## Bounded command executor (tmuxManager.ts `executeCommand`, 567-672) -/

/-- Result record of `executeCommand`. -/
structure ExecResult where
  output : String
  exit_code : Nat
  timed_out : Bool
deriving DecidableEq, Repr

/-- Line filter applied to the payload between the sentinels
(tmuxManager.ts 636-652): drop blanks, recognizable prompt lines, exact
command echoes, and marker `printf`/`echo` lines. `true` keeps the line. -/
def keepLine (command : String) (line : String) : Bool :=
  let trimmed := jsTrim line
  if trimmed = "" then false
  else if jsIncludes trimmed "$" &&
      (jsIncludes trimmed "danielsteigman" || jsIncludes trimmed "MacBook") then false
  else if jsStartsWith trimmed "(base)" && jsIncludes trimmed "$" then false
  else if trimmed = command then false
  else if jsIncludes trimmed "printf" && jsIncludes trimmed "MCP_" then false
  else if jsIncludes trimmed "echo" && jsIncludes trimmed "MCP_" then false
  else true

/-- Normalize-and-parse step of `executeCommand` (tmuxManager.ts 608-661):
strip `\r`/`\f`, split into lines, locate the first line whose trim equals
the start sentinel and the first later line containing the end sentinel,
parse the exit code from that line, and filter the payload between them. -/
def parsePane (startMarker endMarker command : String) (stripAnsi timedOut : Bool)
    (paneDump : String) : ExecResult :=
  let lines := (splitOnChar '\n' (normChars paneDump.data)).map String.mk
  match firstIdxP (fun l => decide (jsTrim l = startMarker)) lines with
  | none => { output := "", exit_code := if timedOut then 130 else 0, timed_out := timedOut }
  | some i =>
    let rest := lines.drop (i + 1)
    let endSearch := firstIdxP (fun l => jsIncludes l endMarker) rest
    let payloadLines :=
      match endSearch with
      | some j => rest.take j
      | none => rest
    let exitCode :=
      match endSearch with
      | some j => (extractExitCode ((rest.drop j).headD "")).getD 0
      | none => 0
    let filtered := payloadLines.filter (keepLine command)
    let payload := jsTrim (jsJoinNl filtered)
    let payload := if stripAnsi then stripAnsiStr payload else payload
    { output := payload, exit_code := exitCode, timed_out := timedOut }

/-- One observable action of the manager: a per-pane mutex acquisition or a
tmux subprocess invocation with its argv (after the `-S socket` base). -/
inductive TmuxEffect
  | mutexAcquire (key : String)
  | tmuxInvoke (argv : List String)
deriving DecidableEq, Repr

/-- Argv of the start-sentinel injection (tmuxManager.ts line 579). -/
def tmuxSendStart (w sm : String) : List String :=
  ["send-keys", "-t", w, "echo \x27" ++ sm ++ "\x27", "Enter"]

/-- Argv of the command injection (tmuxManager.ts line 581). -/
def tmuxSendCommand (w command : String) : List String :=
  ["send-keys", "-t", w, command, "Enter"]

/-- Argv of the end-sentinel injection (tmuxManager.ts line 583). -/
def tmuxSendEnd (w em : String) : List String :=
  ["send-keys", "-t", w, "echo \x27" ++ em ++ "_EXIT_CODE:\x27$?", "Enter"]

/-- Argv of the polling capture (tmuxManager.ts line 591). -/
def tmuxCaptureArgs (w : String) : List String :=
  ["capture-pane", "-J", "-p", "-S", "-", "-E", "-", "-t", w]

/-- Argv of the timeout interrupt keystroke (tmuxManager.ts line 602). -/
def tmuxInterrupt (w : String) : List String :=
  ["send-keys", "-t", w, "C-c"]

/-- Poll loop (tmuxManager.ts 586-597): capture the pane up to `fuel` times
(the number of 50ms polls the deadline allows), stopping at the first capture
containing the end sentinel. `env` is the subprocess oracle, `base` the index
of the next spawn. Returns the breaking capture (or `none` on deadline) and
the capture effects, or the spawn failure. -/
def pollCaptures (env : Nat → Except String String) (w endMarker : String)
    (base : Nat) : Nat → Except String (Option String) × List TmuxEffect
  | 0 => (Except.ok none, [])
  | fuel + 1 =>
    match env base with
    | Except.error e => (Except.error e, [TmuxEffect.tmuxInvoke (tmuxCaptureArgs w)])
    | Except.ok s =>
      if jsIncludes s endMarker then
        (Except.ok (some s), [TmuxEffect.tmuxInvoke (tmuxCaptureArgs w)])
      else
        let r := pollCaptures env w endMarker (base + 1) fuel
        (r.1, TmuxEffect.tmuxInvoke (tmuxCaptureArgs w) :: r.2)

/-- The body of `executeCommand` inside the mutex and the `try` (tmuxManager.ts
578-661): inject start sentinel, command, end sentinel; poll; on deadline send
`C-c` and take a final capture; then parse. A spawn failure aborts with that
failure (caught by the wrapper). -/
def execAttempt (env : Nat → Except String String) (w command sm em : String)
    (fuel : Nat) (stripAnsi : Bool) : Except String ExecResult × List TmuxEffect :=
  match env 0 with
  | Except.error e => (Except.error e, [TmuxEffect.tmuxInvoke (tmuxSendStart w sm)])
  | Except.ok _ =>
    match env 1 with
    | Except.error e =>
      (Except.error e,
        [TmuxEffect.tmuxInvoke (tmuxSendStart w sm), TmuxEffect.tmuxInvoke (tmuxSendCommand w command)])
    | Except.ok _ =>
      match env 2 with
      | Except.error e =>
        (Except.error e,
          [TmuxEffect.tmuxInvoke (tmuxSendStart w sm), TmuxEffect.tmuxInvoke (tmuxSendCommand w command),
           TmuxEffect.tmuxInvoke (tmuxSendEnd w em)])
      | Except.ok _ =>
        let pr := pollCaptures env w em 3 fuel
        let pre := TmuxEffect.tmuxInvoke (tmuxSendStart w sm) ::
          TmuxEffect.tmuxInvoke (tmuxSendCommand w command) ::
          TmuxEffect.tmuxInvoke (tmuxSendEnd w em) :: pr.2
        match pr.1 with
        | Except.error e => (Except.error e, pre)
        | Except.ok (some dump) =>
          (Except.ok (parsePane sm em command stripAnsi false dump), pre)
        | Except.ok none =>
          match env (3 + fuel) with
          | Except.error e => (Except.error e, pre ++ [TmuxEffect.tmuxInvoke (tmuxInterrupt w)])
          | Except.ok _ =>
            match env (4 + fuel) with
            | Except.error e =>
              (Except.error e,
                pre ++ [TmuxEffect.tmuxInvoke (tmuxInterrupt w), TmuxEffect.tmuxInvoke (tmuxCaptureArgs w)])
            | Except.ok dump =>
              (Except.ok (parsePane sm em command stripAnsi true dump),
                pre ++ [TmuxEffect.tmuxInvoke (tmuxInterrupt w), TmuxEffect.tmuxInvoke (tmuxCaptureArgs w)])

/-- `executeCommand` (tmuxManager.ts 567-672): initialized check, per-pane
mutex acquisition, the body above, and the `catch` wrapper that re-throws any
subprocess failure as `Error executing command '<command>': <message>`. -/
def executeCommandRun (initialized : Bool) (env : Nat → Except String String)
    (w command : String) (fuel : Nat) (stripAnsi : Bool) (sm em : String) :
    Except String ExecResult × List TmuxEffect :=
  if initialized then
    let r := execAttempt env w command sm em fuel stripAnsi
    (match r.1 with
     | Except.ok v => Except.ok v
     | Except.error e =>
       Except.error ("Error executing command \x27" ++ command ++ "\x27: " ++ e),
     TmuxEffect.mutexAcquire w :: r.2)
  else (Except.error "tmux server not initialized", [])

/-! ## RPC handler layer (handlers.ts) -/

/-- MCP error codes used by the handlers. -/
inductive McpErrorCode
  | InvalidParams
  | InternalError
deriving DecidableEq, Repr

/-- A structured RPC error (`McpError`). -/
structure McpError where
  code : McpErrorCode
  message : String
deriving DecidableEq, Repr

/-- Arguments of the `execute_command` RPC; `none` models an absent
(`undefined`/`null`) field. -/
structure ExecArgs where
  window_id : Option String
  command : Option String
  timeout_ms : Option Nat
  strip_ansi : Option Bool
deriving DecidableEq, Repr

/-- JS `args[key] !== undefined && args[key] !== null` for `ExecArgs`. -/
def execArgsHas (args : ExecArgs) (key : String) : Bool :=
  if key = "window_id" then args.window_id.isSome
  else if key = "command" then args.command.isSome
  else if key = "timeout_ms" then args.timeout_ms.isSome
  else if key = "strip_ansi" then args.strip_ansi.isSome
  else false

/-- `ToolHandler.validateArgs` (handlers.ts 20-27): throw
`McpError(InvalidParams, "Missing required parameter: <key>")` at the first
required key that is absent. -/
def validateArgs (has : String → Bool) : List String → Option McpError
  | [] => none
  | k :: ks =>
    if has k then validateArgs has ks
    else some { code := McpErrorCode.InvalidParams, message := "Missing required parameter: " ++ k }

/-- `ExecuteCommandToolHandler.handle` (handlers.ts 97-117): validate
`window_id` and `command`, apply the `|| 10000` / `|| false` defaults, call
`executeCommand`, and wrap any thrown error as
`McpError(InternalError, "Error executing command: <message>")`.
`pollBudget` maps the timeout in ms to the number of polls the deadline
allows (scheduling abstraction). -/
def executeHandlerRun (initialized : Bool) (env : Nat → Except String String)
    (pollBudget : Nat → Nat) (sm em : String) (args : ExecArgs) :
    Except McpError ExecResult × List TmuxEffect :=
  match validateArgs (execArgsHas args) ["window_id", "command"] with
  | some err => (Except.error err, [])
  | none =>
    let w := args.window_id.getD ""
    let c := args.command.getD ""
    let t := match args.timeout_ms with
      | some t0 => if t0 = 0 then 10000 else t0
      | none => 10000
    let sa := args.strip_ansi.getD false
    let r := executeCommandRun initialized env w c (pollBudget t) sa sm em
    (match r.1 with
     | Except.ok v => Except.ok v
     | Except.error e =>
       Except.error { code := McpErrorCode.InternalError, message := "Error executing command: " ++ e },
     r.2)

/-! ## stopProcess (tmuxManager.ts 802-827) -/

/-- Result record of `stopProcess`. -/
structure StopResult where
  success : Bool
deriving DecidableEq, Repr

/-- `stopProcess`: under the pane mutex, send `C-c` then `exit` for SIGINT,
send `C-\` then `exit` for SIGTERM, send nothing for any other signal name;
always answer `success: true`. (The tmux subprocess is assumed reachable;
its failure path only rewraps the error and is not exercised here.) -/
def stopProcessRun (initialized : Bool) (w signal : String) :
    Except String StopResult × List TmuxEffect :=
  if initialized then
    let keys : List TmuxEffect :=
      if signal = "SIGINT" then
        [TmuxEffect.tmuxInvoke ["send-keys", "-t", w, "C-c"],
         TmuxEffect.tmuxInvoke ["send-keys", "-t", w, "exit", "Enter"]]
      else if signal = "SIGTERM" then
        [TmuxEffect.tmuxInvoke ["send-keys", "-t", w, "C-\\"],
         TmuxEffect.tmuxInvoke ["send-keys", "-t", w, "exit", "Enter"]]
      else []
    (Except.ok { success := true }, TmuxEffect.mutexAcquire w :: keys)
  else (Except.error "tmux server not initialized", [])

/-! ## readLogsFromTab (tmuxManager.ts 738-775) -/

/-- Result record of `read_logs_from_tab`. -/
structure ReadLogsResult where
  content : String
  returned_lines : Nat
  truncated : Bool
deriving DecidableEq, Repr

/-- Modelled from the spec: the external multiplexer's `capture-pane -p -S -n`
returns the last `n` lines of the pane's history when `n > 0`, the whole
history for the unbounded `-S - -E -` form. The tmux engine itself is outside
`src/`. -/
def capturePaneLast (history : List String) (n : Nat) : String :=
  jsJoinNl (if 0 < n then history.drop (history.length - n) else history)

/-- `readLogsFromTab`: capture (bounded by `lines` when positive), optionally
strip ANSI sequences, count the split lines, and return with the hardcoded
`truncated := false` (the `TODO: implement proper truncation detection` at
tmuxManager.ts line 763). -/
def readLogsFromTabRun (initialized : Bool) (w : String) (history : List String)
    (lines : Nat) (stripAnsi : Bool) : Except String ReadLogsResult × List TmuxEffect :=
  if initialized then
    let captureArgs :=
      if 0 < lines then ["capture-pane", "-p", "-S", "-" ++ toString lines, "-t", w]
      else ["capture-pane", "-p", "-S", "-", "-E", "-", "-t", w]
    let stdout := capturePaneLast history lines
    let content := if stripAnsi then stripAnsiStr stdout else stdout
    (Except.ok
      { content := jsTrim content,
        returned_lines := (jsSplitNl content).length,
        truncated := false },
     [TmuxEffect.mutexAcquire w, TmuxEffect.tmuxInvoke captureArgs])
  else (Except.error "tmux server not initialized", [])

/-! ## createTab / listTabs (tmuxManager.ts 457-501 and 523-561) -/

/-- Window record as stored by the multiplexer (external state). -/
structure MuxWindow where
  id : String
  name : String
  active : Bool
deriving DecidableEq, Repr

/-- The multiplexer's window list (external state, leaves first = oldest
first; `new-window` appends). -/
structure MuxState where
  windows : List MuxWindow
deriving DecidableEq, Repr

/-- Window record as parsed back by `listTabs` (the `TmuxWindow` interface). -/
structure TmuxWindow where
  id : String
  name : String
  active : Bool
deriving DecidableEq, Repr

/-- `windowName.replace(/#/g, '##')` (tmuxManager.ts line 463). -/
def escapeHashChars (l : List Char) : List Char :=
  l.flatMap (fun c => if c = '#' then ['#', '#'] else [c])

/-- `replace(/#/g, '##')` on `String`. -/
def escapeHash (s : String) : String := ⟨escapeHashChars s.data⟩

/-- Modelled from the spec: the external multiplexer's template expansion of a
window name — `##` denotes a literal `#`, any other `#`-sequence is a
template construct (here expanded to nothing); ordinary characters stand for
themselves. The tmux engine is outside `src/`; the spec requires that
escaping make "the literal name ... preserved". -/
def formatExpandChars : List Char → List Char
  | [] => []
  | c :: rest =>
    if c = '#' then
      match rest with
      | [] => []
      | d :: rest2 =>
        if d = '#' then '#' :: formatExpandChars rest2
        else formatExpandChars (d :: rest2)
    else c :: formatExpandChars rest

/-- Template expansion on `String`. -/
def formatExpandStr (s : String) : String := ⟨formatExpandChars s.data⟩

/-- `new-window -P -F '#{window_id}'` prints the fresh id on its own line. -/
def newWindowStdout (freshId : String) : String := freshId ++ "\n"

/-- `createTab` (tmuxManager.ts 457-501): default the name to
`tab-<Date.now()>` when absent or empty, escape `#` as `##`, ask the
multiplexer for a new window (which stores the expanded name and prints the
fresh id), and parse the id back via
`stdout.trim().split('\n').slice(-1)[0].trim()`. Returns the new state, the
`window_id`, and the `name` field of the response (which is `safeName`).
`freshId` is the id the external multiplexer assigns; the `cwd`/`env`
options do not affect naming and are omitted. -/
def createTabRun (st : MuxState) (freshId : String) (nameOpt : Option String)
    (now : Nat) : MuxState × String × String :=
  let windowName := match nameOpt with
    | some n => if n = "" then "tab-" ++ toString now else n
    | none => "tab-" ++ toString now
  let safeName := escapeHash windowName
  let st2 : MuxState :=
    { windows := st.windows ++ [{ id := freshId, name := formatExpandStr safeName, active := false }] }
  let stdout := newWindowStdout freshId
  let windowId := jsTrim ((jsSplitNl (jsTrim stdout)).getLastD "")
  (st2, windowId, safeName)

/-- One record of `list-windows -F '#{window_id}\t#{window_name}\t#{window_active}'`. -/
def windowFmtLine (w : MuxWindow) : String :=
  w.id ++ "\t" ++ w.name ++ "\t" ++ (if w.active then "1" else "0")

/-- The stdout of the `list-windows` invocation: one record per line. -/
def listWindowsStdout (st : MuxState) : String :=
  String.join (st.windows.map (fun w => windowFmtLine w ++ "\n"))

/-- Per-line parser of `listTabs` (tmuxManager.ts 543-553): split on tabs;
the id is the first part, the active flag the last, and the name is every
part in between re-joined with tabs (preserving tabs inside names). -/
def parseWindowLine (line : String) : TmuxWindow :=
  let parts := splitOnChar '\t' line.data
  { id := ⟨parts.headD []⟩,
    name := ⟨joinChar '\t' ((parts.drop 1).dropLast)⟩,
    active := parts.getLastD [] = ['1'] }

/-- `listTabs` (tmuxManager.ts 523-561): trim the whole stdout, return `[]`
when it is empty, otherwise split into lines and parse each record. -/
def listTabsRun (st : MuxState) : List TmuxWindow :=
  let raw := jsTrim (listWindowsStdout st)
  if raw = "" then []
  else (jsSplitNl raw).map parseWindowLine

/-- Well-formedness of a multiplexer window for round-trip parsing: the id is
nonempty, has no surrounding whitespace, and contains neither newline nor
tab; the name contains no newline (tmux never stores multi-line names). -/
def windowWF (w : MuxWindow) : Prop :=
  w.id ≠ "" ∧ jsTrim w.id = w.id ∧ jsIncludes w.id "\n" = false ∧
    jsIncludes w.id "\t" = false ∧ jsIncludes w.name "\n" = false

/-! ## KeyMutex (mutex.ts `runExclusive`, lines 10-47)

`runExclusive(key, fn)` reads the current tail promise for `key`, chains a
fresh `next` promise after it as the new tail, awaits the old tail, runs
`fn`, and resolves `next` in a `finally`. Operationally, per key this is a
FIFO queue: a call may begin running only once every call for the same key
that arrived earlier has finished (its `finally` has resolved the chain),
and it finishes — releasing the chain — whether `fn` returned or threw.

The trace model below records, newest event first: `submit i k` (the
`runExclusive` call for task `i` on key `k` arrived and chained itself),
`start i` (`await prev` resumed and `fn` began), and `finish i ok` (`fn`
settled — `ok = false` models a thrown exception — and the `finally` ran
`resolveNext`). `ValidTrace` holds exactly for the event orders the promise
chaining permits. -/

/-- One scheduling event of `KeyMutex.runExclusive`. -/
inductive MEvent
  | submit (id : Nat) (key : String)
  | start (id : Nat)
  | finish (id : Nat) (ok : Bool)
deriving DecidableEq, Repr

/-- Whether an event is the submission of task `i`. -/
def isSubmitOf (i : Nat) : MEvent → Bool
  | MEvent.submit j _ => j = i
  | _ => false

/-- Whether an event is the start of task `i`. -/
def isStartOf (i : Nat) : MEvent → Bool
  | MEvent.start j => j = i
  | _ => false

/-- Whether an event is the finish of task `i` (with either outcome). -/
def isFinishOf (i : Nat) : MEvent → Bool
  | MEvent.finish j _ => j = i
  | _ => false

/-- The key task `i` was submitted on, if it was submitted. -/
def submittedKey (tr : List MEvent) (i : Nat) : Option String :=
  match tr with
  | [] => none
  | MEvent.submit j k :: rest => if j = i then some k else submittedKey rest i
  | _ :: rest => submittedKey rest i

/-- Task `i` has started. -/
def startedB (tr : List MEvent) (i : Nat) : Bool := tr.any (isStartOf i)

/-- Task `i` has finished. -/
def finishedB (tr : List MEvent) (i : Nat) : Bool := tr.any (isFinishOf i)

/-- Task `i` is currently executing its `fn`. -/
def runningB (tr : List MEvent) (i : Nat) : Bool := startedB tr i && !finishedB tr i

/-- Task `j` was submitted strictly before task `i` (the trace is newest
first, so `j`'s submission lies beyond `i`'s). -/
def subBefore (tr : List MEvent) (j i : Nat) : Bool :=
  match tr with
  | [] => false
  | MEvent.submit a _ :: rest => if a = i then rest.any (isSubmitOf j) else subBefore rest j i
  | _ :: rest => subBefore rest j i

/-- The event orders `KeyMutex.runExclusive` can produce. `submit` chains a
new task after the stored tail (ids are fresh). `start` fires when `await
prev` resumes: the chained tail for the key resolves exactly when every
same-key task submitted earlier has run its `finally`, with no regard to
whether its `fn` returned or threw. `finish` fires when `fn` settles,
successfully (`ok = true`) or by exception (`ok = false`); the `finally`
releases the chain in both cases. -/
inductive ValidTrace : List MEvent → Prop
  | nil : ValidTrace []
  | submit (tr : List MEvent) (i : Nat) (k : String) :
      ValidTrace tr → submittedKey tr i = none →
      ValidTrace (MEvent.submit i k :: tr)
  | start (tr : List MEvent) (i : Nat) (k : String) :
      ValidTrace tr → submittedKey tr i = some k → startedB tr i = false →
      (∀ j, subBefore tr j i = true → submittedKey tr j = some k → finishedB tr j = true) →
      ValidTrace (MEvent.start i :: tr)
  | finish (tr : List MEvent) (i : Nat) (ok : Bool) :
      ValidTrace tr → startedB tr i = true → finishedB tr i = false →
      ValidTrace (MEvent.finish i ok :: tr)

/-! ## Helper lemmas -/

theorem firstIdxP_eq_some (p : String → Bool) :
    ∀ (ls : List String) (i : Nat) (s : String),
      ls.get? i = some s → p s = true →
      (∀ k, k < i → ∀ u, ls.get? k = some u → p u = false) →
      firstIdxP p ls = some i := by
  intro ls
  induction ls with
  | nil => intro i s h _ _; simp at h
  | cons a tl ih =>
    intro i s hget hp hmin
    cases i with
    | zero =>
      simp only [List.get?] at hget
      cases hget
      simp [firstIdxP, hp]
    | succ n =>
      have ha : p a = false := hmin 0 (Nat.succ_pos n) a rfl
      simp only [firstIdxP, ha, Bool.false_eq_true, if_false]
      rw [ih n s hget hp (fun k hk u hu => hmin (k + 1) (Nat.succ_lt_succ hk) u hu)]
      rfl

theorem pollCaptures_none (env : Nat → Except String String) (w em : String) :
    ∀ (fuel base : Nat),
      (∀ i, i < fuel → ∃ s, env (base + i) = Except.ok s ∧ jsIncludes s em = false) →
      pollCaptures env w em base fuel =
        (Except.ok none, List.replicate fuel (TmuxEffect.tmuxInvoke (tmuxCaptureArgs w))) := by
  intro fuel
  induction fuel with
  | zero => intro base _; rfl
  | succ n ih =>
    intro base h
    obtain ⟨s, hs, hm⟩ := h 0 (Nat.succ_pos n)
    rw [Nat.add_zero] at hs
    have hrec := ih (base + 1) (fun i hi => by
      have h2 := h (i + 1) (Nat.succ_lt_succ hi)
      rwa [show base + (i + 1) = base + 1 + i by omega] at h2)
    simp [pollCaptures, hs, hm, hrec, List.replicate_succ]

theorem parsePane_timed_out (sm em c : String) (sa t : Bool) (d : String) :
    (parsePane sm em c sa t d).timed_out = t := by
  simp only [parsePane]
  split <;> rfl

/-! ## C9: stop_process keystrokes -/

/-- C9: `stop_process` sends the interrupt keystroke then an `exit` command
for SIGINT, the quit keystroke then an `exit` command for SIGTERM, and no
keystroke at all for any other signal name; in all three cases it answers
`success = true`. -/
theorem stopProcess_signal_keystrokes (w s : String) :
    (s = "SIGINT" → stopProcessRun true w s =
      (Except.ok { success := true },
       [TmuxEffect.mutexAcquire w,
        TmuxEffect.tmuxInvoke ["send-keys", "-t", w, "C-c"],
        TmuxEffect.tmuxInvoke ["send-keys", "-t", w, "exit", "Enter"]])) ∧
    (s = "SIGTERM" → stopProcessRun true w s =
      (Except.ok { success := true },
       [TmuxEffect.mutexAcquire w,
        TmuxEffect.tmuxInvoke ["send-keys", "-t", w, "C-\\"],
        TmuxEffect.tmuxInvoke ["send-keys", "-t", w, "exit", "Enter"]])) ∧
    (s ≠ "SIGINT" → s ≠ "SIGTERM" → stopProcessRun true w s =
      (Except.ok { success := true }, [TmuxEffect.mutexAcquire w])) := by
  refine ⟨fun h => ?_, fun h => ?_, fun h1 h2 => ?_⟩
  · simp [stopProcessRun, h]
  · simp [stopProcessRun, h]
  · simp [stopProcessRun, h1, h2]

/-- Witness for C9 at the concrete signals SIGINT and SIGKILL. -/
theorem stopProcess_signal_keystrokes_witness :
    stopProcessRun true "@1" "SIGINT" =
      (Except.ok { success := true },
       [TmuxEffect.mutexAcquire "@1",
        TmuxEffect.tmuxInvoke ["send-keys", "-t", "@1", "C-c"],
        TmuxEffect.tmuxInvoke ["send-keys", "-t", "@1", "exit", "Enter"]]) ∧
    stopProcessRun true "@1" "SIGKILL" =
      (Except.ok { success := true }, [TmuxEffect.mutexAcquire "@1"]) :=
  ⟨(stopProcess_signal_keystrokes "@1" "SIGINT").1 rfl,
   (stopProcess_signal_keystrokes "@1" "SIGKILL").2.2 (by decide) (by decide)⟩

/-! ## C6: read_logs_from_tab truncation flag -/

/-- C6: `read_logs_from_tab` returns `truncated = false` unconditionally
(the hardcoded value with the source's own TODO), even on the concrete input
where ten lines of history exist and only five were requested and returned —
so `truncated` does not signal that more history existed than was returned. -/
theorem readLogs_truncated_always_false :
    (readLogsFromTabRun true "@1" ["h1", "h2", "h3", "h4", "h5", "h6", "h7", "h8", "h9", "h10"] 5 false).1 =
      Except.ok { content := "h6\nh7\nh8\nh9\nh10", returned_lines := 5, truncated := false } ∧
    (5 : Nat) < ["h1", "h2", "h3", "h4", "h5", "h6", "h7", "h8", "h9", "h10"].length ∧
    (∀ (w : String) (hist : List String) (n : Nat) (sa : Bool),
      (readLogsFromTabRun true w hist n sa).1.map ReadLogsResult.truncated = Except.ok false) := by
  refine ⟨rfl, by decide, fun w hist n sa => ?_⟩
  simp [readLogsFromTabRun, Except.map]

/-! ## C8: missing required fields rejected before mutex and subprocess -/

/-- C8: a request missing `window_id` or `command` is rejected with an
invalid-parameters error, with an empty effect trace: no session mutex is
acquired and no multiplexer subprocess is invoked. -/
theorem missing_fields_rejected_early (initialized : Bool)
    (env : Nat → Except String String) (pb : Nat → Nat) (sm em : String) (args : ExecArgs)
    (h : args.window_id = none ∨ args.command = none) :
    ∃ k, executeHandlerRun initialized env pb sm em args =
        (Except.error { code := McpErrorCode.InvalidParams,
                        message := "Missing required parameter: " ++ k }, []) ∧
      (k = "window_id" ∨ k = "command") := by
  cases hw : args.window_id with
  | none =>
    exact ⟨"window_id", by simp [executeHandlerRun, validateArgs, execArgsHas, hw], Or.inl rfl⟩
  | some w =>
    cases h with
    | inl h => rw [h] at hw; cases hw
    | inr hc =>
      exact ⟨"command", by simp [executeHandlerRun, validateArgs, execArgsHas, hw, hc], Or.inr rfl⟩

/-- Witness for C8: a concrete request with `command` absent. -/
theorem missing_fields_rejected_early_witness :
    ∃ k, executeHandlerRun true (fun _ => Except.ok "") (fun _ => 1) "SM" "EM"
        { window_id := some "@1", command := none, timeout_ms := none, strip_ansi := none } =
        (Except.error { code := McpErrorCode.InvalidParams,
                        message := "Missing required parameter: " ++ k }, []) ∧
      (k = "window_id" ∨ k = "command") :=
  missing_fields_rejected_early true (fun _ => Except.ok "") (fun _ => 1) "SM" "EM" _ (Or.inr rfl)

/-! ## C4: unknown session id on execute_command -/

/-- C4 counterexample: with a dead window every tmux spawn fails; the handler
surfaces a generic `InternalError` (there is no distinct SessionNotFound
error anywhere in the code), and the effect trace contains the start-sentinel
keystroke injection — the failure arises from the injection attempt, not
before injection begins. -/
theorem executeCommand_dead_session_counterexample :
    (executeHandlerRun true (fun _ => Except.error "tmux exited with code 1: cannot find window: @99")
        (fun _ => 1) "SM" "EM"
        { window_id := some "@99", command := some "echo hi", timeout_ms := none, strip_ansi := none }).1 =
      Except.error { code := McpErrorCode.InternalError,
                     message := "Error executing command: Error executing command \x27echo hi\x27: tmux exited with code 1: cannot find window: @99" } ∧
    TmuxEffect.tmuxInvoke (tmuxSendStart "@99" "SM") ∈
      (executeHandlerRun true (fun _ => Except.error "tmux exited with code 1: cannot find window: @99")
        (fun _ => 1) "SM" "EM"
        { window_id := some "@99", command := some "echo hi", timeout_ms := none, strip_ansi := none }).2 := by
  refine ⟨rfl, ?_⟩
  simp [executeHandlerRun, validateArgs, execArgsHas, executeCommandRun, execAttempt]

/-- C4 (amended): when the first keystroke injection fails (as it does for a
session id with no live backing window), `execute_command` fails with the
generic `InternalError` wrapping of the spawn failure, after acquiring the
session mutex and attempting exactly the one start-sentinel injection. -/
theorem executeCommand_dead_session_internal_error
    (env : Nat → Except String String) (pb : Nat → Nat) (sm em w c msg : String)
    (tms : Option Nat) (sa : Option Bool)
    (h0 : env 0 = Except.error msg) :
    executeHandlerRun true env pb sm em
        { window_id := some w, command := some c, timeout_ms := tms, strip_ansi := sa } =
      (Except.error { code := McpErrorCode.InternalError,
                      message := "Error executing command: " ++
                        ("Error executing command \x27" ++ c ++ "\x27: " ++ msg) },
       [TmuxEffect.mutexAcquire w, TmuxEffect.tmuxInvoke (tmuxSendStart w sm)]) := by
  simp [executeHandlerRun, validateArgs, execArgsHas, executeCommandRun, execAttempt, h0]

/-- Witness for C4's amended theorem at a concrete failing environment. -/
theorem executeCommand_dead_session_internal_error_witness :
    executeHandlerRun true (fun _ => Except.error "no window") (fun _ => 1) "SM" "EM"
        { window_id := some "@9", command := some "pwd", timeout_ms := none, strip_ansi := none } =
      (Except.error { code := McpErrorCode.InternalError,
                      message := "Error executing command: " ++
                        ("Error executing command \x27" ++ "pwd" ++ "\x27: " ++ "no window") },
       [TmuxEffect.mutexAcquire "@9", TmuxEffect.tmuxInvoke (tmuxSendStart "@9" "SM")]) :=
  executeCommand_dead_session_internal_error (fun _ => Except.error "no window")
    (fun _ => 1) "SM" "EM" "@9" "pwd" "no window" none none rfl

/-! ## C2: timeout behavior of execute_command -/

/-- C2 counterexample: a run whose polls never see the end sentinel but whose
final (post-interrupt) capture does contain a start-sentinel line returns
`timed_out = true` with `exit_code = 0`, not 130. -/
theorem executeCommand_timeout_exitcode_counterexample :
    (executeCommandRun true
        (fun k => Except.ok (if k = 5 then "SM\nhello" else if k = 3 then "zz" else ""))
        "@1" "sleep 99" 1 false "SM" "EM").1 =
      Except.ok { output := "hello", exit_code := 0, timed_out := true } ∧ (0 : Nat) ≠ 130 :=
  ⟨rfl, by decide⟩

/-- C2 (amended): when the end sentinel never appears in any pre-deadline
capture, `executeCommand` sends the interrupt keystroke, takes a final
capture, and returns normally (no throw) with `timed_out = true`; the exit
code is 130 exactly when the final capture contains no start-sentinel line,
and otherwise comes from parsing the capture. -/
theorem executeCommand_timeout_returns (env : Nat → Except String String)
    (w command sm em : String) (fuel : Nat) (sa : Bool) (o0 o1 o2 oc dump : String)
    (h0 : env 0 = Except.ok o0) (h1 : env 1 = Except.ok o1) (h2 : env 2 = Except.ok o2)
    (hpoll : ∀ i, i < fuel → ∃ s, env (3 + i) = Except.ok s ∧ jsIncludes s em = false)
    (hint : env (3 + fuel) = Except.ok oc) (hcap : env (4 + fuel) = Except.ok dump) :
    executeCommandRun true env w command fuel sa sm em =
      (Except.ok (parsePane sm em command sa true dump),
       TmuxEffect.mutexAcquire w :: TmuxEffect.tmuxInvoke (tmuxSendStart w sm) ::
         TmuxEffect.tmuxInvoke (tmuxSendCommand w command) ::
         TmuxEffect.tmuxInvoke (tmuxSendEnd w em) ::
         (List.replicate fuel (TmuxEffect.tmuxInvoke (tmuxCaptureArgs w)) ++
           [TmuxEffect.tmuxInvoke (tmuxInterrupt w), TmuxEffect.tmuxInvoke (tmuxCaptureArgs w)])) ∧
    (parsePane sm em command sa true dump).timed_out = true ∧
    (firstIdxP (fun l => decide (jsTrim l = sm))
        ((splitOnChar '\n' (normChars dump.data)).map String.mk) = none →
      (parsePane sm em command sa true dump).exit_code = 130) := by
  have hp := pollCaptures_none env w em fuel 3 (fun i hi => hpoll i hi)
  refine ⟨?_, parsePane_timed_out sm em command sa true dump, fun hnone => ?_⟩
  · simp only [executeCommandRun, if_pos, execAttempt, h0, h1, h2, hp, hint, hcap]
    simp [List.cons_append]
  · simp [parsePane, hnone]

/-- Witness for C2's amended theorem: one poll that misses the sentinel, a
final capture with no start-sentinel line, yielding exit code 130. -/
theorem executeCommand_timeout_returns_witness :
    (executeCommandRun true (fun k => Except.ok (if k = 5 then "x\ny" else "zz"))
        "@1" "cmd" 1 false "SM" "EM").1 =
      Except.ok { output := "", exit_code := 130, timed_out := true } := by
  have h := executeCommand_timeout_returns
    (fun k => Except.ok (if k = 5 then "x\ny" else "zz"))
    "@1" "cmd" "SM" "EM" 1 false "zz" "zz" "zz" "zz" "x\ny"
    rfl rfl rfl
    (fun i hi => ⟨"zz", by simp [show 3 + i = 3 by omega], by decide⟩)
    rfl rfl
  rw [h.1]
  rw [show parsePane "SM" "EM" "cmd" false true "x\ny" =
    { output := "", exit_code := 130, timed_out := true } from by decide]

/-- C1: when the captured pane contains a (first) line whose trimmed content
equals the start sentinel and a (first) later line containing the end
sentinel, `executeCommand` returns as output exactly the lines strictly
between those two lines, passed through the best-effort prompt/command-echo
filter, and the exit code extracted from the end-sentinel line by the fixed
`_EXIT_CODE:<digits>` pattern (0 when the pattern does not match). -/
theorem executeCommand_between_markers
    (w sm em command dump : String) (lines : List String) (i d : Nat) (si sj : String)
    (hlines : (splitOnChar '\n' (normChars dump.data)).map String.mk = lines)
    (hpoll : jsIncludes dump em = true)
    (hi : lines.get? i = some si) (hsi : jsTrim si = sm)
    (hbefore : ∀ k, k < i → ∀ u, lines.get? k = some u → jsTrim u ≠ sm)
    (hj : lines.get? (i + 1 + d) = some sj) (hsj : jsIncludes sj em = true)
    (hmid : ∀ k, i < k → k < i + 1 + d → ∀ u, lines.get? k = some u → jsIncludes u em = false) :
    executeCommandRun true (fun _ => Except.ok dump) w command 1 false sm em =
      (Except.ok
        { output := jsTrim (jsJoinNl (((lines.drop (i + 1)).take d).filter (keepLine command))),
          exit_code := (extractExitCode sj).getD 0,
          timed_out := false },
       [TmuxEffect.mutexAcquire w, TmuxEffect.tmuxInvoke (tmuxSendStart w sm),
        TmuxEffect.tmuxInvoke (tmuxSendCommand w command),
        TmuxEffect.tmuxInvoke (tmuxSendEnd w em),
        TmuxEffect.tmuxInvoke (tmuxCaptureArgs w)]) := by
  have hstart : firstIdxP (fun l => decide (jsTrim l = sm)) lines = some i :=
    firstIdxP_eq_some _ lines i si hi (by simp [hsi])
      (fun k hk u hu => by simpa using hbefore k hk u hu)
  have hrest : ∀ k, (lines.drop (i + 1)).get? k = lines.get? (i + 1 + k) := fun k => by
    rw [List.get?_eq_getElem?, List.get?_eq_getElem?, List.getElem?_drop]
  have hend : firstIdxP (fun l => jsIncludes l em) (lines.drop (i + 1)) = some d :=
    firstIdxP_eq_some _ _ d sj (by rw [hrest]; exact hj) hsj
      (fun k hk u hu => hmid (i + 1 + k) (by omega) (by omega) u (by rw [← hrest]; exact hu))
  have hheadD : ((lines.drop (i + 1)).drop d).headD "" = sj := by
    rw [List.headD_eq_head?_getD, List.head?_eq_getElem?, List.getElem?_drop]
    have h5 : (lines.drop (i + 1)).get? d = some sj := by rw [hrest]; exact hj
    rw [List.get?_eq_getElem?] at h5
    simp only [Nat.add_zero]
    rw [h5]
    rfl
  simp only [executeCommandRun, if_pos, execAttempt, pollCaptures, hpoll, if_true]
  simp only [parsePane, hlines, hstart, hend, hheadD]
  rfl

/-- Witness for C1 at a concrete three-line capture. -/
theorem executeCommand_between_markers_witness :
    executeCommandRun true (fun _ => Except.ok "SM\nhello\nEM_EXIT_CODE:7") "@1" "mycmd" 1 false "SM" "EM" =
      (Except.ok { output := "hello", exit_code := 7, timed_out := false },
       [TmuxEffect.mutexAcquire "@1", TmuxEffect.tmuxInvoke (tmuxSendStart "@1" "SM"),
        TmuxEffect.tmuxInvoke (tmuxSendCommand "@1" "mycmd"),
        TmuxEffect.tmuxInvoke (tmuxSendEnd "@1" "EM"),
        TmuxEffect.tmuxInvoke (tmuxCaptureArgs "@1")]) := by
  have h := executeCommand_between_markers "@1" "SM" "EM" "mycmd" "SM\nhello\nEM_EXIT_CODE:7"
    ["SM", "hello", "EM_EXIT_CODE:7"] 0 1 "SM" "EM_EXIT_CODE:7"
    (by decide) (by decide) rfl rfl
    (fun k hk u hu => absurd hk (Nat.not_lt_zero k))
    rfl (by decide)
    (fun k h1 h2 u hu => by
      have hk : k = 1 := by omega
      subst hk
      cases hu
      decide)
  rw [h]
  rfl

/-- C10: when no line of the finally-captured buffer trims to the start
sentinel, `executeCommand` returns (does not throw) with empty output,
`timed_out` reflecting whether the deadline elapsed, and exit code 130 on
timeout, 0 otherwise. -/
theorem executeCommand_no_start_sentinel (w command sm em : String) (sa : Bool) :
    (∀ dump : String, jsIncludes dump em = true →
      firstIdxP (fun l => decide (jsTrim l = sm))
          ((splitOnChar '\n' (normChars dump.data)).map String.mk) = none →
      (executeCommandRun true (fun _ => Except.ok dump) w command 1 sa sm em).1 =
        Except.ok { output := "", exit_code := 0, timed_out := false }) ∧
    (∀ (caps : Nat → String) (fuel : Nat),
      (∀ i, i < fuel → jsIncludes (caps (3 + i)) em = false) →
      firstIdxP (fun l => decide (jsTrim l = sm))
          ((splitOnChar '\n' (normChars (caps (4 + fuel)).data)).map String.mk) = none →
      (executeCommandRun true (fun k => Except.ok (caps k)) w command fuel sa sm em).1 =
        Except.ok { output := "", exit_code := 130, timed_out := true }) := by
  constructor
  · intro dump hpoll hnone
    simp only [executeCommandRun, if_pos, execAttempt, pollCaptures, hpoll, if_true]
    simp [parsePane, hnone]
  · intro caps fuel hpoll hnone
    have hp := pollCaptures_none (fun k => Except.ok (caps k)) w em fuel 3
      (fun i hi => ⟨caps (3 + i), rfl, hpoll i hi⟩)
    simp only [executeCommandRun, if_pos, execAttempt, hp]
    simp [parsePane, hnone]

/-- Witness for C10 in both the non-timeout and the timeout scenario. -/
theorem executeCommand_no_start_sentinel_witness :
    (executeCommandRun true (fun _ => Except.ok "a EM b") "@1" "cmd" 1 false "SM" "EM").1 =
      Except.ok { output := "", exit_code := 0, timed_out := false } ∧
    (executeCommandRun true (fun _ => Except.ok "x") "@1" "cmd" 1 false "SM" "EM").1 =
      Except.ok { output := "", exit_code := 130, timed_out := true } :=
  ⟨(executeCommand_no_start_sentinel "@1" "cmd" "SM" "EM" false).1 "a EM b" (by decide) (by decide),
   (executeCommand_no_start_sentinel "@1" "cmd" "SM" "EM" false).2 (fun _ => "x") 1
     (fun i hi => by show jsIncludes "x" "EM" = false; decide) (by decide)⟩

theorem submittedKey_cons_submit (a : Nat) (k : String) (tr : List MEvent) (i : Nat) :
    submittedKey (MEvent.submit a k :: tr) i = if a = i then some k else submittedKey tr i := rfl

theorem submittedKey_cons_start (a : Nat) (tr : List MEvent) (i : Nat) :
    submittedKey (MEvent.start a :: tr) i = submittedKey tr i := rfl

theorem submittedKey_cons_finish (a : Nat) (ok : Bool) (tr : List MEvent) (i : Nat) :
    submittedKey (MEvent.finish a ok :: tr) i = submittedKey tr i := rfl

theorem startedB_cons (e : MEvent) (tr : List MEvent) (i : Nat) :
    startedB (e :: tr) i = (isStartOf i e || startedB tr i) := rfl

theorem finishedB_cons (e : MEvent) (tr : List MEvent) (i : Nat) :
    finishedB (e :: tr) i = (isFinishOf i e || finishedB tr i) := rfl

theorem subBefore_cons_submit (a : Nat) (k : String) (tr : List MEvent) (j i : Nat) :
    subBefore (MEvent.submit a k :: tr) j i =
      if a = i then tr.any (isSubmitOf j) else subBefore tr j i := rfl

theorem subBefore_cons_start (a : Nat) (tr : List MEvent) (j i : Nat) :
    subBefore (MEvent.start a :: tr) j i = subBefore tr j i := rfl

theorem subBefore_cons_finish (a : Nat) (ok : Bool) (tr : List MEvent) (j i : Nat) :
    subBefore (MEvent.finish a ok :: tr) j i = subBefore tr j i := rfl

theorem any_submit_iff_submittedKey (j : Nat) :
    ∀ tr : List MEvent, tr.any (isSubmitOf j) = true ↔ (submittedKey tr j).isSome = true := by
  intro tr
  induction tr with
  | nil => simp [submittedKey]
  | cons e rest ih =>
    cases e with
    | submit a k =>
      rw [List.any_cons, submittedKey_cons_submit, Bool.or_eq_true]
      by_cases ha : a = j
      · subst ha
        simp [isSubmitOf]
      · simp only [if_neg ha, isSubmitOf, decide_eq_true_eq]
        constructor
        · intro h
          rcases h with h | h
          · exact absurd h ha
          · exact ih.mp h
        · intro h
          exact Or.inr (ih.mpr h)
    | start a =>
      rw [List.any_cons, submittedKey_cons_start]
      simp only [isSubmitOf, Bool.false_or]
      exact ih
    | finish a ok =>
      rw [List.any_cons, submittedKey_cons_finish]
      simp only [isSubmitOf, Bool.false_or]
      exact ih

theorem subBefore_any (j i : Nat) :
    ∀ tr : List MEvent, subBefore tr j i = true → tr.any (isSubmitOf j) = true := by
  intro tr
  induction tr with
  | nil => intro h; simp [subBefore] at h
  | cons e rest ih =>
    cases e with
    | submit a k =>
      rw [subBefore_cons_submit, List.any_cons, Bool.or_eq_true]
      by_cases ha : a = i
      · rw [if_pos ha]
        intro h
        exact Or.inr h
      · rw [if_neg ha]
        intro h
        exact Or.inr (ih h)
    | start a =>
      rw [subBefore_cons_start, List.any_cons, Bool.or_eq_true]
      intro h
      exact Or.inr (ih h)
    | finish a ok =>
      rw [subBefore_cons_finish, List.any_cons, Bool.or_eq_true]
      intro h
      exact Or.inr (ih h)

theorem started_then_submitted {tr : List MEvent} (hv : ValidTrace tr) :
    ∀ i, startedB tr i = true → (submittedKey tr i).isSome = true := by
  induction hv with
  | nil => intro i h; simp [startedB] at h
  | submit tr a k hv hnone ih =>
    intro i h
    rw [startedB_cons] at h
    simp only [isStartOf, Bool.false_or] at h
    rw [submittedKey_cons_submit]
    by_cases ha : a = i
    · rw [if_pos ha]; rfl
    · rw [if_neg ha]; exact ih i h
  | start tr a k hv hsub hns hguard ih =>
    intro i h
    rw [startedB_cons] at h
    rw [submittedKey_cons_start]
    simp only [isStartOf, Bool.or_eq_true, decide_eq_true_eq] at h
    rcases h with h | h
    · subst h; rw [hsub]; rfl
    · exact ih i h
  | finish tr a ok hv hs hf ih =>
    intro i h
    rw [startedB_cons] at h
    simp only [isStartOf, Bool.false_or] at h
    rw [submittedKey_cons_finish]
    exact ih i h

theorem finished_then_started {tr : List MEvent} (hv : ValidTrace tr) :
    ∀ i, finishedB tr i = true → startedB tr i = true := by
  induction hv with
  | nil => intro i h; simp [finishedB] at h
  | submit tr a k hv hnone ih =>
    intro i h
    rw [finishedB_cons] at h
    simp only [isFinishOf, Bool.false_or] at h
    rw [startedB_cons]
    simp only [isStartOf, Bool.false_or]
    exact ih i h
  | start tr a k hv hsub hns hguard ih =>
    intro i h
    rw [finishedB_cons] at h
    simp only [isFinishOf, Bool.false_or] at h
    rw [startedB_cons, Bool.or_eq_true]
    exact Or.inr (ih i h)
  | finish tr a ok hv hs hf ih =>
    intro i h
    rw [finishedB_cons, Bool.or_eq_true] at h
    rw [startedB_cons]
    simp only [isStartOf, Bool.false_or]
    rcases h with h | h
    · simp only [isFinishOf, decide_eq_true_eq] at h
      subst h
      exact hs
    · exact ih i h

theorem mutex_fifo_invariant {tr : List MEvent} (hv : ValidTrace tr) :
    ∀ i j k, submittedKey tr i = some k → submittedKey tr j = some k →
      subBefore tr j i = true → startedB tr i = true → finishedB tr j = true := by
  induction hv with
  | nil => intro i j k hi _ _ _; simp [submittedKey] at hi
  | submit tr a k0 hv hnone ih =>
    intro i j k hi hj hb hs
    rw [startedB_cons] at hs
    simp only [isStartOf, Bool.false_or] at hs
    rw [finishedB_cons]
    simp only [isFinishOf, Bool.false_or]
    rw [submittedKey_cons_submit] at hi hj
    rw [subBefore_cons_submit] at hb
    by_cases hai : a = i
    · subst hai
      have h1 := started_then_submitted hv a hs
      rw [hnone] at h1
      simp at h1
    · rw [if_neg hai] at hi hb
      by_cases haj : a = j
      · subst haj
        have h2 := (any_submit_iff_submittedKey a tr).mp (subBefore_any a i tr hb)
        rw [hnone] at h2
        simp at h2
      · rw [if_neg haj] at hj
        exact ih i j k hi hj hb hs
  | start tr a k0 hv hsub hns hguard ih =>
    intro i j k hi hj hb hs
    rw [submittedKey_cons_start] at hi hj
    rw [subBefore_cons_start] at hb
    rw [startedB_cons, Bool.or_eq_true] at hs
    rw [finishedB_cons]
    simp only [isFinishOf, Bool.false_or]
    rcases hs with hs | hs
    · simp only [isStartOf, decide_eq_true_eq] at hs
      subst hs
      have hk : k = k0 := by rw [hsub] at hi; cases hi; rfl
      subst hk
      exact hguard j hb hj
    · exact ih i j k hi hj hb hs
  | finish tr a ok hv hsB hfB ih =>
    intro i j k hi hj hb hs
    rw [submittedKey_cons_finish] at hi hj
    rw [subBefore_cons_finish] at hb
    rw [startedB_cons] at hs
    simp only [isStartOf, Bool.false_or] at hs
    rw [finishedB_cons, Bool.or_eq_true]
    exact Or.inr (ih i j k hi hj hb hs)

theorem submitted_total (i j : Nat) (hij : i ≠ j) :
    ∀ tr : List MEvent, (submittedKey tr i).isSome = true → (submittedKey tr j).isSome = true →
      subBefore tr j i = true ∨ subBefore tr i j = true := by
  intro tr
  induction tr with
  | nil => intro h _; simp [submittedKey] at h
  | cons e rest ih =>
    cases e with
    | submit a k =>
      intro hi hj
      rw [submittedKey_cons_submit] at hi hj
      by_cases hai : a = i
      · subst hai
        left
        rw [subBefore_cons_submit, if_pos rfl]
        rw [if_neg hij] at hj
        exact (any_submit_iff_submittedKey j rest).mpr hj
      · by_cases haj : a = j
        · subst haj
          right
          rw [subBefore_cons_submit, if_pos rfl]
          rw [if_neg hai] at hi
          exact (any_submit_iff_submittedKey i rest).mpr hi
        · rw [if_neg hai] at hi
          rw [if_neg haj] at hj
          rw [subBefore_cons_submit, if_neg hai, subBefore_cons_submit, if_neg haj]
          exact ih hi hj
    | start a =>
      intro hi hj
      rw [submittedKey_cons_start] at hi hj
      rw [subBefore_cons_start, subBefore_cons_start]
      exact ih hi hj
    | finish a ok =>
      intro hi hj
      rw [submittedKey_cons_finish] at hi hj
      rw [subBefore_cons_finish, subBefore_cons_finish]
      exact ih hi hj

/-- C3: per-key mutual exclusion and FIFO of `KeyMutex.runExclusive`: in every
reachable schedule, two distinct operations on the same session id are never
running at the same instant; an operation on a key can only have started if
every earlier-arrived operation on that key has started (arrival-order
execution); and operations on two different keys can be running
simultaneously (not serialized against each other). -/
theorem keyMutex_exclusive_fifo :
    (∀ (tr : List MEvent) (i j : Nat) (k : String), ValidTrace tr →
      submittedKey tr i = some k → submittedKey tr j = some k → i ≠ j →
      ¬(runningB tr i = true ∧ runningB tr j = true)) ∧
    (∀ (tr : List MEvent) (i j : Nat) (k : String), ValidTrace tr →
      submittedKey tr i = some k → submittedKey tr j = some k →
      subBefore tr j i = true → startedB tr i = true → startedB tr j = true) ∧
    (∃ tr : List MEvent, ValidTrace tr ∧ submittedKey tr 0 = some "a" ∧
      submittedKey tr 1 = some "b" ∧ runningB tr 0 = true ∧ runningB tr 1 = true) := by
  refine ⟨?_, ?_, ?_⟩
  · rintro tr i j k hv hi hj hij ⟨hri, hrj⟩
    simp only [runningB, Bool.and_eq_true, Bool.not_eq_true'] at hri hrj
    obtain ⟨hsi, hfi⟩ := hri
    obtain ⟨hsj, hfj⟩ := hrj
    have htot := submitted_total i j hij tr (by rw [hi]; rfl) (by rw [hj]; rfl)
    rcases htot with hb | hb
    · have hfin := mutex_fifo_invariant hv i j k hi hj hb hsi
      rw [hfin] at hfj
      cases hfj
    · have hfin := mutex_fifo_invariant hv j i k hj hi hb hsj
      rw [hfin] at hfi
      cases hfi
  · intro tr i j k hv hi hj hb hs
    exact finished_then_started hv j (mutex_fifo_invariant hv i j k hi hj hb hs)
  · refine ⟨[MEvent.start 1, MEvent.start 0, MEvent.submit 1 "b", MEvent.submit 0 "a"],
      ?_, by decide, by decide, by decide, by decide⟩
    apply ValidTrace.start _ 1 "b"
    · apply ValidTrace.start _ 0 "a"
      · apply ValidTrace.submit _ 1 "b"
        · exact ValidTrace.submit _ 0 "a" ValidTrace.nil (by decide)
        · decide
      · decide
      · decide
      · intro j hb hk
        simp [subBefore_cons_submit, isSubmitOf] at hb
    · decide
    · decide
    · intro j hb hk
      simp only [subBefore_cons_start, subBefore_cons_submit] at hb
      simp [isSubmitOf] at hb
      subst hb
      simp [submittedKey] at hk

/-- Witness for C3: mutual exclusion applied to a concrete valid trace with
two tasks queued on one key. -/
theorem keyMutex_exclusive_fifo_witness :
    ¬(runningB [MEvent.start 0, MEvent.submit 1 "a", MEvent.submit 0 "a"] 0 = true ∧
      runningB [MEvent.start 0, MEvent.submit 1 "a", MEvent.submit 0 "a"] 1 = true) := by
  have hval : ValidTrace [MEvent.start 0, MEvent.submit 1 "a", MEvent.submit 0 "a"] := by
    apply ValidTrace.start _ 0 "a"
    · apply ValidTrace.submit _ 1 "a"
      · exact ValidTrace.submit _ 0 "a" ValidTrace.nil (by decide)
      · decide
    · decide
    · decide
    · intro j hb hk
      simp [subBefore_cons_submit, isSubmitOf] at hb
  exact keyMutex_exclusive_fifo.1 _ 0 1 "a" hval (by decide) (by decide) (by decide)

/-- C7: the release in `runExclusive` happens on every exit path: finishing
with a thrown exception (`ok = false`) is allowed under exactly the same
conditions as finishing normally, and there is a schedule in which a task
throws and a later task queued on the same key still starts afterwards. -/
theorem keyMutex_release_on_error :
    (∀ (tr : List MEvent) (i : Nat) (ok : Bool), ValidTrace tr →
      startedB tr i = true → finishedB tr i = false →
      ValidTrace (MEvent.finish i ok :: tr)) ∧
    (∃ tr : List MEvent, ValidTrace tr ∧ MEvent.finish 0 false ∈ tr ∧
      submittedKey tr 0 = some "a" ∧ submittedKey tr 1 = some "a" ∧
      subBefore tr 0 1 = true ∧ startedB tr 1 = true) := by
  refine ⟨fun tr i ok hv hs hf => ValidTrace.finish tr i ok hv hs hf, ?_⟩
  refine ⟨[MEvent.start 1, MEvent.finish 0 false, MEvent.start 0,
           MEvent.submit 1 "a", MEvent.submit 0 "a"],
    ?_, by decide, by decide, by decide, by decide, by decide⟩
  apply ValidTrace.start _ 1 "a"
  · apply ValidTrace.finish _ 0 false
    · apply ValidTrace.start _ 0 "a"
      · apply ValidTrace.submit _ 1 "a"
        · exact ValidTrace.submit _ 0 "a" ValidTrace.nil (by decide)
        · decide
      · decide
      · decide
      · intro j hb hk
        simp [subBefore_cons_submit, isSubmitOf] at hb
    · decide
    · decide
  · decide
  · decide
  · intro j hb hk
    simp only [subBefore_cons_start, subBefore_cons_finish, subBefore_cons_submit] at hb
    simp [isSubmitOf] at hb
    subst hb
    decide

/-- Witness for C7: the release-on-exception rule applied at a concrete
trace where one running task throws. -/
theorem keyMutex_release_on_error_witness :
    ValidTrace [MEvent.finish 0 false, MEvent.start 0, MEvent.submit 0 "a"] := by
  have hval : ValidTrace [MEvent.start 0, MEvent.submit 0 "a"] := by
    apply ValidTrace.start _ 0 "a"
    · exact ValidTrace.submit _ 0 "a" ValidTrace.nil (by decide)
    · decide
    · decide
    · intro j hb hk
      simp [subBefore_cons_submit, isSubmitOf] at hb
  exact keyMutex_release_on_error.1 _ 0 false hval (by decide) (by decide)

theorem formatExpandChars_hashhash (rest : List Char) :
    formatExpandChars ('#' :: '#' :: rest) = '#' :: formatExpandChars rest := by
  rw [formatExpandChars.eq_def]
  simp

theorem formatExpandChars_cons (c : Char) (rest : List Char) (hc : c ≠ '#') :
    formatExpandChars (c :: rest) = c :: formatExpandChars rest := by
  rw [formatExpandChars.eq_def]
  simp [hc]

theorem formatExpand_escapeHash : ∀ l : List Char, formatExpandChars (escapeHashChars l) = l := by
  intro l
  induction l with
  | nil => rfl
  | cons c rest ih =>
    by_cases hc : c = '#'
    · subst hc
      show formatExpandChars ('#' :: '#' :: escapeHashChars rest) = '#' :: rest
      rw [formatExpandChars_hashhash, ih]
    · show formatExpandChars
        ((if c = '#' then ['#', '#'] else [c]) ++ escapeHashChars rest) = c :: rest
      rw [if_neg hc]
      show formatExpandChars (c :: escapeHashChars rest) = c :: rest
      rw [formatExpandChars_cons c _ hc, ih]

theorem containsChars_singleton (c : Char) :
    ∀ l : List Char, containsChars l [c] = true ↔ c ∈ l := by
  intro l
  induction l with
  | nil => simp [containsChars]
  | cons d rest ih =>
    show (List.isPrefixOf [c] (d :: rest) || containsChars rest [c]) = true ↔ c ∈ d :: rest
    have hpre : List.isPrefixOf [c] (d :: rest) = (c == d) := by
      show ((c == d) && List.isPrefixOf [] rest) = (c == d)
      simp [List.isPrefixOf]
    rw [hpre, Bool.or_eq_true, beq_iff_eq, List.mem_cons, ih]

theorem splitOnChar_ne_nil (sep : Char) : ∀ l : List Char, splitOnChar sep l ≠ [] := by
  intro l
  cases l with
  | nil => simp [splitOnChar]
  | cons c rest =>
    show (match splitOnChar sep rest with
      | [] => [[]]
      | h :: t => if c = sep then [] :: h :: t else (c :: h) :: t) ≠ []
    cases splitOnChar sep rest with
    | nil => simp
    | cons h t =>
      by_cases hc : c = sep
      · simp [hc]
      · simp [hc]

theorem splitOnChar_append (sep : Char) :
    ∀ x y : List Char, splitOnChar sep (x ++ sep :: y) =
      splitOnChar sep x ++ splitOnChar sep y := by
  intro x y
  induction x with
  | nil =>
    show splitOnChar sep (sep :: y) = [[]] ++ splitOnChar sep y
    show (match splitOnChar sep y with
      | [] => [[]]
      | h :: t => if sep = sep then [] :: h :: t else (sep :: h) :: t) = [[]] ++ splitOnChar sep y
    cases hy : splitOnChar sep y with
    | nil => exact absurd hy (splitOnChar_ne_nil sep y)
    | cons h t => simp
  | cons c rest ih =>
    show (match splitOnChar sep (rest ++ sep :: y) with
      | [] => [[]]
      | h :: t => if c = sep then [] :: h :: t else (c :: h) :: t) =
      (match splitOnChar sep rest with
        | [] => [[]]
        | h :: t => if c = sep then [] :: h :: t else (c :: h) :: t) ++ splitOnChar sep y
    rw [ih]
    cases hr : splitOnChar sep rest with
    | nil => exact absurd hr (splitOnChar_ne_nil sep rest)
    | cons h t =>
      by_cases hc : c = sep
      · simp [hc]
      · simp [hc]

theorem splitOnChar_of_not_mem (sep : Char) :
    ∀ l : List Char, sep ∉ l → splitOnChar sep l = [l] := by
  intro l
  induction l with
  | nil => intro _; rfl
  | cons c rest ih =>
    intro hmem
    have hc : c ≠ sep := fun h => hmem (h ▸ List.mem_cons_self c rest)
    have hrest : sep ∉ rest := fun h => hmem (List.mem_cons_of_mem c h)
    show (match splitOnChar sep rest with
      | [] => [[]]
      | h :: t => if c = sep then [] :: h :: t else (c :: h) :: t) = [c :: rest]
    rw [ih hrest]
    simp [hc]

theorem joinChar_splitOnChar (sep : Char) :
    ∀ l : List Char, joinChar sep (splitOnChar sep l) = l := by
  intro l
  induction l with
  | nil => rfl
  | cons c rest ih =>
    show joinChar sep (match splitOnChar sep rest with
      | [] => [[]]
      | h :: t => if c = sep then [] :: h :: t else (c :: h) :: t) = c :: rest
    cases hr : splitOnChar sep rest with
    | nil => exact absurd hr (splitOnChar_ne_nil sep rest)
    | cons h t =>
      rw [hr] at ih
      by_cases hc : c = sep
      · subst hc
        simp only [if_pos rfl]
        show joinChar c ([] :: h :: t) = c :: rest
        show [] ++ c :: joinChar c (h :: t) = c :: rest
        rw [List.nil_append, ih]
      · simp only [if_neg hc]
        cases t with
        | nil =>
          show c :: h = c :: rest
          rw [show joinChar sep [h] = h from rfl] at ih
          rw [ih]
        | cons t0 ts =>
          show (c :: h) ++ sep :: joinChar sep (t0 :: ts) = c :: rest
          show c :: (h ++ sep :: joinChar sep (t0 :: ts)) = c :: rest
          rw [show h ++ sep :: joinChar sep (t0 :: ts) = joinChar sep (h :: t0 :: ts) from rfl]
          rw [ih]

theorem splitOnChar_joinChar (sep : Char) :
    ∀ ls : List (List Char), ls ≠ [] → (∀ l ∈ ls, sep ∉ l) →
      splitOnChar sep (joinChar sep ls) = ls := by
  intro ls
  induction ls with
  | nil => intro h; exact absurd rfl h
  | cons l rest ih =>
    intro _ hmem
    cases rest with
    | nil =>
      show splitOnChar sep l = [l]
      exact splitOnChar_of_not_mem sep l (hmem l (List.mem_cons_self l []))
    | cons r rs =>
      show splitOnChar sep (l ++ sep :: joinChar sep (r :: rs)) = l :: r :: rs
      rw [splitOnChar_append]
      rw [splitOnChar_of_not_mem sep l (hmem l (List.mem_cons_self l _))]
      rw [ih (by simp) (fun x hx => hmem x (List.mem_cons_of_mem l hx))]
      rfl

theorem trimChars_append_ws (c : Char) (hc : isWS c = true) (l : List Char) :
    trimChars (l ++ [c]) = trimChars l := by
  unfold trimChars
  rw [List.dropWhile_append]
  by_cases h : (l.dropWhile isWS).isEmpty
  · rw [if_pos h]
    have h1 : List.dropWhile isWS [c] = [] := by simp [List.dropWhile_cons, hc]
    rw [h1]
    rw [List.isEmpty_iff] at h
    rw [h]
  · rw [if_neg h]
    rw [List.reverse_append]
    rw [show ([c] : List Char).reverse = [c] from rfl]
    rw [show ([c] : List Char) ++ (l.dropWhile isWS).reverse = c :: (l.dropWhile isWS).reverse from rfl]
    rw [List.dropWhile_cons, hc]
    simp

theorem trimChars_eq_self (l : List Char)
    (hhead : ∀ c, l.head? = some c → isWS c = false)
    (hlast : ∀ c, l.getLast? = some c → isWS c = false) :
    trimChars l = l := by
  unfold trimChars
  have h1 : l.dropWhile isWS = l := by
    cases l with
    | nil => rfl
    | cons a rest =>
      rw [List.dropWhile_cons, hhead a rfl]
      simp
  rw [h1]
  have h2 : l.reverse.dropWhile isWS = l.reverse := by
    cases hr : l.reverse with
    | nil => rfl
    | cons a rest =>
      have hgl : l.getLast? = some a := by
        rw [← List.head?_reverse, hr]
        rfl
      rw [List.dropWhile_cons, hlast a hgl]
      simp
  rw [h2, List.reverse_reverse]

theorem trim_head_not_ws (l : List Char) (ht : trimChars l = l) :
    ∀ c, l.head? = some c → isWS c = false := by
  intro c hc
  by_contra hw
  rw [Bool.not_eq_false] at hw
  cases l with
  | nil => cases hc
  | cons a rest =>
    have ha : a = c := by cases hc; rfl
    subst ha
    have hlen : (trimChars (a :: rest)).length ≤ rest.length := by
      unfold trimChars
      rw [List.dropWhile_cons, hw]
      simp only [if_true]
      calc ((rest.dropWhile isWS).reverse.dropWhile isWS).reverse.length
          = ((rest.dropWhile isWS).reverse.dropWhile isWS).length := List.length_reverse _
        _ ≤ (rest.dropWhile isWS).reverse.length := (List.dropWhile_sublist _).length_le
        _ = (rest.dropWhile isWS).length := List.length_reverse _
        _ ≤ rest.length := (List.dropWhile_sublist _).length_le
    rw [ht] at hlen
    simp at hlen

theorem joinChar_cons_cons (sep : Char) (a b : List Char) (rest : List (List Char)) :
    joinChar sep (a :: b :: rest) = a ++ sep :: joinChar sep (b :: rest) := rfl

theorem joinChar_ne_nil (sep : Char) (ls : List (List Char)) (l : List Char) (hl : l ≠ []) :
    joinChar sep (ls ++ [l]) ≠ [] := by
  cases ls with
  | nil => exact hl
  | cons a rest =>
    cases h : rest ++ [l] with
    | nil => exact absurd h (by simp)
    | cons r0 rtail =>
      show joinChar sep (a :: (rest ++ [l])) ≠ []
      rw [h, joinChar_cons_cons]
      simp

theorem joinChar_head? (sep : Char) (a : List Char) (rest : List (List Char)) (ha : a ≠ []) :
    (joinChar sep (a :: rest)).head? = a.head? := by
  cases rest with
  | nil => rfl
  | cons b rs =>
    cases a with
    | nil => exact absurd rfl ha
    | cons x xs => rfl

theorem joinChar_getLast? (sep : Char) :
    ∀ (ls : List (List Char)) (l : List Char), l ≠ [] →
      (joinChar sep (ls ++ [l])).getLast? = l.getLast? := by
  intro ls
  induction ls with
  | nil => intro l _; rfl
  | cons a rest ih =>
    intro l hl
    cases h : rest ++ [l] with
    | nil => exact absurd h (by simp)
    | cons r0 rtail =>
      show (joinChar sep (a :: (rest ++ [l]))).getLast? = l.getLast?
      rw [h, joinChar_cons_cons, ← h]
      rw [show (sep :: joinChar sep (rest ++ [l])) = [sep] ++ joinChar sep (rest ++ [l]) from rfl]
      rw [List.getLast?_append, List.getLast?_append]
      have hne := joinChar_ne_nil sep rest l hl
      cases hgl : (joinChar sep (rest ++ [l])).getLast? with
      | none => exact absurd (List.getLast?_eq_none_iff.mp hgl) hne
      | some d =>
        rw [← ih l hl, hgl]
        rfl

theorem join_map_nl : ∀ lines : List (List Char), lines ≠ [] →
    (lines.map (fun l => l ++ ['\n'])).flatten = joinChar '\n' lines ++ ['\n'] := by
  intro lines
  induction lines with
  | nil => intro h; exact absurd rfl h
  | cons l rest ih =>
    intro _
    cases rest with
    | nil => simp [joinChar]
    | cons r rs =>
      show (l ++ ['\n']) ++ ((r :: rs).map (fun l => l ++ ['\n'])).flatten =
        joinChar '\n' (l :: r :: rs) ++ ['\n']
      rw [ih (by simp), joinChar_cons_cons]
      simp [List.append_assoc]

theorem stringJoin_data : ∀ ss : List String, (String.join ss).data = (ss.map String.data).flatten := by
  have haux : ∀ (ss : List String) (acc : String),
      (ss.foldl (fun r s => r ++ s) acc).data = acc.data ++ (ss.map String.data).flatten := by
    intro ss
    induction ss with
    | nil => intro acc; simp
    | cons s rest ih =>
      intro acc
      show (rest.foldl (fun r s => r ++ s) (acc ++ s)).data = _
      rw [ih (acc ++ s)]
      show (acc.data ++ s.data) ++ (rest.map String.data).flatten = _
      simp [List.append_assoc]
  intro ss
  exact haux ss ""

theorem windowFmtLine_data (w : MuxWindow) :
    (windowFmtLine w).data =
      w.id.data ++ '\t' :: (w.name.data ++ '\t' :: (if w.active then ['1'] else ['0'])) := by
  obtain ⟨i, nm, a⟩ := w
  cases a
  · show (((i.data ++ ['\t']) ++ nm.data) ++ ['\t']) ++ ['0'] = _
    simp [List.append_assoc]
  · show (((i.data ++ ['\t']) ++ nm.data) ++ ['\t']) ++ ['1'] = _
    simp [List.append_assoc]

theorem windowFmtLine_data_concat (w : MuxWindow) :
    (windowFmtLine w).data =
      (w.id.data ++ '\t' :: (w.name.data ++ ['\t'])) ++ [if w.active then '1' else '0'] := by
  rw [windowFmtLine_data]
  cases w.active <;> simp [List.append_assoc]

theorem jsIncludes_not_mem {s : String} {c : Char} {t : String}
    (ht : t.data = [c]) (h : jsIncludes s t = false) : c ∉ s.data := by
  intro hm
  have h2 := (containsChars_singleton c s.data).mpr hm
  rw [show containsChars s.data [c] = jsIncludes s t from by rw [jsIncludes, ht]] at h2
  rw [h] at h2
  cases h2

theorem parseWindowLine_fmt (w : MuxWindow) (hwf : windowWF w) :
    parseWindowLine (windowFmtLine w) = { id := w.id, name := w.name, active := w.active } := by
  obtain ⟨hne, htrim, hnl, htab, hnamenl⟩ := hwf
  have hidtab : '\t' ∉ w.id.data := jsIncludes_not_mem rfl htab
  have hacttab : '\t' ∉ (if w.active then ['1'] else ['0']) := by
    cases w.active <;> simp
  have hsplit : splitOnChar '\t' (windowFmtLine w).data =
      w.id.data :: (splitOnChar '\t' w.name.data ++ [if w.active then ['1'] else ['0']]) := by
    rw [windowFmtLine_data]
    rw [splitOnChar_append, splitOnChar_of_not_mem _ _ hidtab]
    rw [splitOnChar_append, splitOnChar_of_not_mem _ _ hacttab]
    rfl
  unfold parseWindowLine
  rw [hsplit]
  dsimp only
  congr 1
  · rw [show List.drop 1 (w.id.data ::
        (splitOnChar '\t' w.name.data ++ [if w.active then ['1'] else ['0']])) =
      splitOnChar '\t' w.name.data ++ [if w.active then ['1'] else ['0']] from rfl]
    rw [List.dropLast_concat, joinChar_splitOnChar]
  · rw [show (w.id.data :: (splitOnChar '\t' w.name.data ++ [if w.active then ['1'] else ['0']])) =
      (w.id.data :: splitOnChar '\t' w.name.data) ++ [if w.active then ['1'] else ['0']] from by
        rw [List.cons_append]]
    rw [List.getLastD_eq_getLast?, List.getLast?_concat]
    cases w.active <;> simp

theorem fmtLine_no_nl (w : MuxWindow) (hwf : windowWF w) : '\n' ∉ (windowFmtLine w).data := by
  obtain ⟨hne, htrim, hnl, htab, hnamenl⟩ := hwf
  rw [windowFmtLine_data]
  intro hm
  rcases List.mem_append.mp hm with h | h
  · exact jsIncludes_not_mem rfl hnl h
  · rcases List.mem_cons.mp h with h | h
    · cases h
    · rcases List.mem_append.mp h with h | h
      · exact jsIncludes_not_mem rfl hnamenl h
      · rcases List.mem_cons.mp h with h | h
        · cases h
        · revert h
          cases w.active <;> simp

theorem fmtLine_ne_nil (w : MuxWindow) : (windowFmtLine w).data ≠ [] := by
  rw [windowFmtLine_data_concat]
  simp

theorem fmtLine_head_not_ws (w : MuxWindow) (hwf : windowWF w) :
    ∀ c, (windowFmtLine w).data.head? = some c → isWS c = false := by
  obtain ⟨hne, htrim, hnl, htab, hnamenl⟩ := hwf
  intro c hc
  rw [windowFmtLine_data, List.head?_append] at hc
  cases hid : w.id.data with
  | nil => exact absurd (congrArg String.mk hid) hne
  | cons x xs =>
    rw [hid] at hc
    have hx : x = c := by
      rw [show ((x :: xs : List Char).head?.or
        (('\t' :: (w.name.data ++ '\t' :: (if w.active then ['1'] else ['0']))).head?)) =
          some x from rfl] at hc
      cases hc
      rfl
    subst hx
    have htr : trimChars w.id.data = w.id.data := congrArg String.data htrim
    exact trim_head_not_ws w.id.data htr x (by rw [hid]; rfl)

theorem fmtLine_getLast_digit (w : MuxWindow) :
    (windowFmtLine w).data.getLast? = some (if w.active then '1' else '0') := by
  rw [windowFmtLine_data_concat, List.getLast?_concat]

theorem listTabsRun_wf (ws : List MuxWindow) (hne : ws ≠ [])
    (hwf : ∀ w ∈ ws, windowWF w) :
    listTabsRun { windows := ws } =
      ws.map (fun w => { id := w.id, name := w.name, active := w.active }) := by
  have hlinesne : ws.map (fun w => (windowFmtLine w).data) ≠ [] := by
    intro h
    exact hne (List.map_eq_nil_iff.mp h)
  have hstdout : (listWindowsStdout { windows := ws }).data =
      joinChar '\n' (ws.map (fun w => (windowFmtLine w).data)) ++ ['\n'] := by
    show (String.join (ws.map (fun w => windowFmtLine w ++ "\n"))).data = _
    rw [stringJoin_data, List.map_map]
    rw [show ((fun s => String.data s) ∘ fun w => windowFmtLine w ++ "\n") =
      ((fun l => l ++ ['\n']) ∘ fun w => (windowFmtLine w).data) from rfl]
    rw [← List.map_map]
    exact join_map_nl _ hlinesne
  obtain ⟨winit, wlast, hdecomp⟩ : ∃ i l, ws = i ++ [l] :=
    ⟨ws.dropLast, ws.getLast hne, (List.dropLast_append_getLast hne).symm⟩
  have hwlastmem : wlast ∈ ws := by rw [hdecomp]; simp
  obtain ⟨w0, wrest, hcons⟩ : ∃ a l, ws = a :: l := by
    cases ws with
    | nil => exact absurd rfl hne
    | cons a l => exact ⟨a, l, rfl⟩
  have hw0 : windowWF w0 := hwf w0 (by rw [hcons]; simp)
  have hJlast : (joinChar '\n' (ws.map (fun w => (windowFmtLine w).data))).getLast? =
      some (if wlast.active then '1' else '0') := by
    rw [hdecomp, List.map_append]
    rw [show (List.map (fun w => (windowFmtLine w).data) [wlast]) =
      [(windowFmtLine wlast).data] from rfl]
    rw [joinChar_getLast? '\n' _ _ (fmtLine_ne_nil wlast)]
    exact fmtLine_getLast_digit wlast
  have hJhead : ∀ c, (joinChar '\n' (ws.map (fun w => (windowFmtLine w).data))).head? = some c →
      isWS c = false := by
    intro c hc
    rw [hcons] at hc
    rw [show List.map (fun w => (windowFmtLine w).data) (w0 :: wrest) =
      (windowFmtLine w0).data :: wrest.map (fun w => (windowFmtLine w).data) from rfl] at hc
    rw [joinChar_head? '\n' _ _ (fmtLine_ne_nil w0)] at hc
    exact fmtLine_head_not_ws w0 hw0 c hc
  have hJne : joinChar '\n' (ws.map (fun w => (windowFmtLine w).data)) ≠ [] := by
    rw [hdecomp, List.map_append]
    exact joinChar_ne_nil '\n' _ _ (fmtLine_ne_nil wlast)
  have htrim : trimChars ((listWindowsStdout { windows := ws }).data) =
      joinChar '\n' (ws.map (fun w => (windowFmtLine w).data)) := by
    rw [hstdout, trimChars_append_ws '\n' (by decide)]
    exact trimChars_eq_self _ hJhead (fun c hc => by
      rw [hJlast] at hc
      cases hc
      cases wlast.active <;> rfl)
  unfold listTabsRun
  rw [show jsTrim (listWindowsStdout { windows := ws }) =
    (⟨joinChar '\n' (ws.map (fun w => (windowFmtLine w).data))⟩ : String) from by
      unfold jsTrim
      rw [htrim]]
  rw [if_neg (show ¬(⟨joinChar '\n' (ws.map (fun w => (windowFmtLine w).data))⟩ : String) = ""
    from fun hraw => hJne (congrArg String.data hraw))]
  unfold jsSplitNl
  rw [show (⟨joinChar '\n' (ws.map (fun w => (windowFmtLine w).data))⟩ : String).data =
    joinChar '\n' (ws.map (fun w => (windowFmtLine w).data)) from rfl]
  rw [splitOnChar_joinChar '\n' _ hlinesne (by
    intro l hl
    rw [List.mem_map] at hl
    obtain ⟨w, hw, rfl⟩ := hl
    exact fmtLine_no_nl w (hwf w hw))]
  rw [List.map_map, List.map_map]
  apply List.map_congr_left
  intro w hw
  show parseWindowLine (⟨(windowFmtLine w).data⟩ : String) = _
  exact parseWindowLine_fmt w (hwf w hw)

/-- C5: for every nonempty, newline-free name accepted by `create_tab`
(escaping handles characters meaningful to the multiplexer templating, such
as `#`, spaces and punctuation), an immediately following `list_tabs`
contains the returned window id paired with the requested name preserved
exactly as supplied. `freshId` is the id the multiplexer assigns (opaque,
whitespace-free); existing windows are assumed well-formed. -/
theorem create_then_list_preserves_name (st : MuxState) (freshId n : String) (now : Nat)
    (hwf : ∀ w ∈ st.windows, windowWF w)
    (hidWF : windowWF { id := freshId, name := "", active := false })
    (hn1 : n ≠ "") (hn2 : jsIncludes n "\n" = false) :
    (createTabRun st freshId (some n) now).2.1 = freshId ∧
    ({ id := freshId, name := n, active := false } : TmuxWindow) ∈
      listTabsRun (createTabRun st freshId (some n) now).1 := by
  obtain ⟨hfne, hftrim, hfnl, hftab, -⟩ := hidWF
  have hexp : formatExpandStr (escapeHash n) = n :=
    congrArg String.mk (formatExpand_escapeHash n.data)
  have htrimdata : trimChars freshId.data = freshId.data := congrArg String.data hftrim
  have h1 : jsTrim (newWindowStdout freshId) = freshId := by
    show (⟨trimChars (freshId.data ++ ['\n'])⟩ : String) = freshId
    rw [trimChars_append_ws '\n' (by decide), htrimdata]
  have h2 : jsSplitNl freshId = [freshId] := by
    show (splitOnChar '\n' freshId.data).map String.mk = [freshId]
    rw [splitOnChar_of_not_mem '\n' freshId.data (jsIncludes_not_mem rfl hfnl)]
    rfl
  have hid : (createTabRun st freshId (some n) now).2.1 = freshId := by
    show jsTrim ((jsSplitNl (jsTrim (newWindowStdout freshId))).getLastD "") = freshId
    rw [h1, h2]
    show jsTrim freshId = freshId
    exact hftrim
  refine ⟨hid, ?_⟩
  have hifn : (if n = "" then "tab-" ++ toString now else n) = n := if_neg hn1
  have hstate : (createTabRun st freshId (some n) now).1 =
      { windows := st.windows ++ [{ id := freshId, name := n, active := false }] } := by
    show ({ windows := st.windows ++
      [{ id := freshId,
         name := formatExpandStr (escapeHash (if n = "" then "tab-" ++ toString now else n)),
         active := false }] } : MuxState) = _
    rw [hifn, hexp]
  rw [hstate]
  rw [listTabsRun_wf _ (by simp) (by
    intro w hw
    rcases List.mem_append.mp hw with h | h
    · exact hwf w h
    · rw [List.mem_singleton] at h
      subst h
      exact ⟨hfne, hftrim, hfnl, hftab, hn2⟩)]
  rw [List.map_append]
  apply List.mem_append_right
  simp

/-- Witness for C5 at a name with a space, `#`, and punctuation. -/
theorem create_then_list_preserves_name_witness :
    (createTabRun { windows := [] } "@7" (some "my tab#1!") 0).2.1 = "@7" ∧
    ({ id := "@7", name := "my tab#1!", active := false } : TmuxWindow) ∈
      listTabsRun (createTabRun { windows := [] } "@7" (some "my tab#1!") 0).1 :=
  create_then_list_preserves_name { windows := [] } "@7" "my tab#1!" 0
    (fun w hw => absurd hw (List.not_mem_nil w))
    ⟨by decide, by decide, by decide, by decide, by decide⟩
    (by decide) (by decide)
